import Mathlib

/-!
Verification of the `polyscan` sliding-window scanner (`src/main.rs`).

The program scans DNA sequences with a fixed-size window, keeping a 5-slot
frequency table (A, C, G, T, N) that is built from scratch for the first
window and updated incrementally afterwards (evict the byte at `start - 1`,
insert the byte at `start + w - 1`).  At each window position it emits a
"+"-strand interval when the user-chosen nucleotide's count reaches the
threshold and, independently, a "-"-strand interval when the complement
nucleotide's count does.

This file gives a shallow embedding of that scanner: machine integers become
`Nat`, the Rust `f64` values of the threshold computation are modelled as
exact rationals together with an explicit IEEE binary64 rounding function
(round to nearest, ties to even) for the positive normal range, and the
percentage expression `(count as f64 / w as f64) * 100.0` is read in exact
rational arithmetic.
-/

set_option maxRecDepth 100000

namespace Polyscan

/-- Byte classifier `nuc_to_index` (`main.rs` lines 70-79): maps the ASCII
bytes of `A/a`, `C/c`, `G/g`, `T/t`, `N/n` to the five frequency slots and
every other byte to `none`. -/
def nuc_to_index (nuc : Nat) : Option (Fin 5) :=
  if nuc = 65 ∨ nuc = 97 then some 0
  else if nuc = 67 ∨ nuc = 99 then some 1
  else if nuc = 71 ∨ nuc = 103 then some 2
  else if nuc = 84 ∨ nuc = 116 then some 3
  else if nuc = 78 ∨ nuc = 110 then some 4
  else none

/-- Complement mapping `complement_char` (`main.rs` lines 83-92):
`A`-`T`, `C`-`G`, `N`-`N`, with `N` as the fallback for anything else. -/
def complement_char (c : Char) : Char :=
  if c = 'A' then 'T'
  else if c = 'T' then 'A'
  else if c = 'C' then 'G'
  else if c = 'G' then 'C'
  else if c = 'N' then 'N'
  else 'N'

/-- Round a rational to the nearest integer, ties to even (the IEEE 754
default rounding used by Rust's `f64` arithmetic). -/
def roundHalfEven (q : ℚ) : ℤ :=
  if q - ⌊q⌋ < 1 / 2 then ⌊q⌋
  else if (1 : ℚ) / 2 < q - ⌊q⌋ then ⌊q⌋ + 1
  else if ⌊q⌋ % 2 = 0 then ⌊q⌋ else ⌊q⌋ + 1

/-- Floor of the base-2 logarithm of a positive rational: the unique `e`
with `2 ^ e ≤ q < 2 ^ (e + 1)` (`Nat.log2` is the floor log on naturals). -/
def floorLog2 (q : ℚ) : ℤ :=
  if 1 ≤ q then (Nat.log2 ⌊q⌋.toNat : ℤ)
  else -((Nat.log2 (⌈q⁻¹⌉.toNat - 1) : ℤ) + 1)

/-- Rounding of an exact rational to the nearest IEEE binary64 value
(53-bit significand, round to nearest, ties to even), modelled for
nonnegative values in the normal range; these are the only values reached
by the threshold computation on validated inputs. -/
def fl (q : ℚ) : ℚ :=
  if q ≤ 0 then 0
  else (roundHalfEven (q * 2 ^ ((52 : ℤ) - floorLog2 q)) : ℚ) * 2 ^ (floorLog2 q - 52)

/-- Threshold resolution (`main.rs` line 66):
`((p / 100.0) * (w as f64)).ceil() as usize`, with every `f64` operation
rounded through `fl`.  The final `.ceil()` of a double and the cast to
`usize` are exact for the nonnegative values arising here. -/
def threshold_count_f64 (p : ℚ) (w : Nat) : Nat :=
  ⌈fl (fl (p / 100) * fl (w : ℚ))⌉.toNat

/-- Modelled from the spec: `threshold_count = ceil(p / 100.0 * w)` "using
exact ceiling semantics", i.e. the exact mathematical ceiling with no
floating-point rounding.  Compared against `threshold_count_f64`. -/
def threshold_count_spec (p : ℚ) (w : Nat) : Nat :=
  ⌈p / 100 * (w : ℚ)⌉.toNat

/-- One emitted interval record (the fields handed to `write_bed_record`):
chromosome, 0-based half-open window `[start, stop)`, the user-chosen base
as `name`, the observed percentage, and the strand (`"+"` or `"-"`).
`stop` stands for the Rust `end`, a reserved word here. -/
structure IntervalMatch where
  chrom : String
  start : Nat
  stop : Nat
  name : Char
  percentage : ℚ
  strand : String
deriving DecidableEq

/-- Evaluation of one window position (`main.rs` lines 180-197 and 211-240):
emit a "+" interval when the user base's slot reaches the threshold and,
independently, a "-" interval when the complement's slot does; both carry
the user-chosen base and `percentage = count / w * 100`. -/
def checkWindow (chrom : String) (base : Char) (userIdx compIdx : Fin 5)
    (thr w : Nat) (freq : Fin 5 → Nat) (start : Nat) : List IntervalMatch :=
  (if thr ≤ freq userIdx then
    [⟨chrom, start, start + w, base, (freq userIdx : ℚ) / (w : ℚ) * 100, "+"⟩]
  else [])
  ++
  (if thr ≤ freq compIdx then
    [⟨chrom, start, start + w, base, (freq compIdx : ℚ) / (w : ℚ) * 100, "-"⟩]
  else [])

/-- Initial frequency table (`main.rs` lines 171-178): classify every byte
of the first window `[0, w)` independently; unrecognized bytes increment
no slot. -/
def initFreq (seq : List Nat) (w : Nat) : Fin 5 → Nat := fun i =>
  (seq.take w).countP (fun b => nuc_to_index b == some i)

/-- One incremental slide (`main.rs` lines 200-209): saturating decrement of
the slot of the leaving byte, then increment of the slot of the entering
byte; unrecognized bytes touch nothing.  `Nat` subtraction is saturating,
matching `saturating_sub`. -/
def slideStep (freq : Fin 5 → Nat) (leaving entering : Nat) : Fin 5 → Nat :=
  let f1 := match nuc_to_index leaving with
    | some i => Function.update freq i (freq i - 1)
    | none => freq
  match nuc_to_index entering with
  | some i => Function.update f1 i (f1 i + 1)
  | none => f1

/-- Frequency table held by the scanner at window position `k`: the initial
table for `k = 0`, then one `slideStep` per position (the byte leaving when
moving to position `k + 1` is `seq[k]`, the byte entering is `seq[k + w]`,
matching `seq[start - 1]` and `seq[start + w - 1]` at `start = k + 1`). -/
def freqAt (seq : List Nat) (w : Nat) : Nat → (Fin 5 → Nat)
  | 0 => initFreq seq w
  | k + 1 => slideStep (freqAt seq w k) (seq.getD k 0) (seq.getD (k + w) 0)

/-- Whole-record scan (`main.rs` lines 160-242): resolve the slot indices of
the user base and its complement (`unwrap` succeeds for validated bases;
an unresolvable base yields nothing, a case the CLI layer rejects), skip
the record when it is shorter than the window, and otherwise evaluate
every window position `0, 1, ..., len - w` in order. -/
def scanRecord (chrom : String) (seq : List Nat) (w thr : Nat) (base : Char) :
    List IntervalMatch :=
  match nuc_to_index base.toNat, nuc_to_index (complement_char base).toNat with
  | some userIdx, some compIdx =>
    if seq.length < w then []
    else
      (List.range (seq.length - w + 1)).flatMap fun k =>
        checkWindow chrom base userIdx compIdx thr w (freqAt seq w k) k
  | _, _ => []

/-- Frequency of slot `i` computed from scratch by independently classifying
every byte of the window `[start, start + w)` (the reference value of the
incremental-update invariant). -/
def windowCount (seq : List Nat) (start w : Nat) (i : Fin 5) : Nat :=
  ((seq.drop start).take w).countP (fun b => nuc_to_index b == some i)

/-- Number of unrecognized bytes in the window `[start, start + w)`. -/
def unrecognizedCount (seq : List Nat) (start w : Nat) : Nat :=
  ((seq.drop start).take w).countP (fun b => nuc_to_index b == none)

example : nuc_to_index 97 = some 0 ∧ nuc_to_index 88 = none := by decide

example : freqAt [65, 65, 84] 2 1 0 = 1 := by decide

example : threshold_count_f64 80 10 = 8 := by with_unfolding_all decide

example :
    scanRecord "c" [65, 65] 1 1 'A' =
      [⟨"c", 0, 1, 'A', 100, "+"⟩, ⟨"c", 1, 2, 'A', 100, "+"⟩] := by
  with_unfolding_all decide

/-- One slide applied to the from-scratch table of window `k` yields the
from-scratch table of window `k + 1` (window size at least 1, next window
in bounds). -/
theorem slideStep_windowCount (seq : List Nat) (w k : Nat) (h1 : 1 ≤ w)
    (hkw : k + w < seq.length) (i : Fin 5) :
    slideStep (windowCount seq k w) (seq.getD k 0) (seq.getD (k + w) 0) i =
      windowCount seq (k + 1) w i := by
  obtain ⟨w', rfl⟩ : ∃ w', w = w' + 1 := ⟨w - 1, by omega⟩
  have hk : k < seq.length := by omega
  have hkw' : k + 1 + w' < seq.length := by omega
  have hgk : seq.getD k 0 = seq[k] := List.getD_eq_getElem seq 0 hk
  have hgkw : seq.getD (k + (w' + 1)) 0 = seq[k + 1 + w'] := by
    have h : k + (w' + 1) = k + 1 + w' := by omega
    rw [h, List.getD_eq_getElem seq 0 hkw']
  set M : Fin 5 → Nat := fun j =>
    ((seq.drop (k + 1)).take w').countP (fun b => nuc_to_index b == some j) with hM
  have hWk : ∀ j : Fin 5, windowCount seq k (w' + 1) j =
      M j + (if nuc_to_index seq[k] = some j then 1 else 0) := by
    intro j
    rw [windowCount, List.drop_eq_getElem_cons hk, List.take_succ_cons,
      List.countP_cons]
    simp [hM, beq_iff_eq]
  have hWk1 : ∀ j : Fin 5, windowCount seq (k + 1) (w' + 1) j =
      M j + (if nuc_to_index seq[k + 1 + w'] = some j then 1 else 0) := by
    intro j
    have hdrop : (seq.drop (k + 1))[w']? = some seq[k + 1 + w'] := by
      rw [List.getElem?_drop]
      exact List.getElem?_eq_getElem hkw'
    rw [windowCount, List.take_succ, List.countP_append, hdrop]
    simp [hM, List.countP_cons, beq_iff_eq]
  rw [hgk, hgkw, hWk1 i]
  unfold slideStep
  rcases hL : nuc_to_index seq[k] with _ | jL <;>
    rcases hE : nuc_to_index seq[k + 1 + w'] with _ | jE <;>
      simp only []
  · simp [hWk, hL]
  · simp only [Function.update_apply, hWk, hL]
    rcases eq_or_ne i jE with rfl | hiE
    · simp
    · simp [hiE, Ne.symm hiE]
  · simp only [Function.update_apply, hWk, hL, Option.some.injEq]
    rcases eq_or_ne i jL with rfl | hiL
    · simp
    · simp [hiL, Ne.symm hiL]
  · simp only [Function.update_apply, hWk, hL, Option.some.injEq]
    rcases eq_or_ne i jE with rfl | hiE
    · rcases eq_or_ne i jL with rfl | hiL
      · simp
      · simp [hiL, Ne.symm hiL]
    · rcases eq_or_ne i jL with rfl | hiL
      · simp [hiE, Ne.symm hiE]
      · simp [hiE, hiL, Ne.symm hiL, Ne.symm hiE]

/-- Core invariant: the incrementally maintained table at window position `k`
equals the table computed from scratch over `[k, k + w)`, for any window
size at least 1. -/
theorem freqAt_eq_windowCount (seq : List Nat) (w : Nat) (h1 : 1 ≤ w)
    (hw : w ≤ seq.length) (k : Nat) :
    k ≤ seq.length - w → ∀ i : Fin 5, freqAt seq w k i = windowCount seq k w i := by
  induction k with
  | zero =>
    intro _ i
    show initFreq seq w i = windowCount seq 0 w i
    simp [initFreq, windowCount]
  | succ k ih =>
    intro hk i
    have hfun : freqAt seq w k = windowCount seq k w :=
      funext fun j => ih (by omega) j
    show slideStep (freqAt seq w k) (seq.getD k 0) (seq.getD (k + w) 0) i = _
    rw [hfun]
    exact slideStep_windowCount seq w k h1 (by omega) i

/-- Each byte of a window lands in exactly one of the six buckets: one of
the five slots, or the unrecognized pool. -/
theorem countP_partition (l : List Nat) :
    (∑ j : Fin 5, l.countP (fun b => nuc_to_index b == some j)) +
      l.countP (fun b => nuc_to_index b == none) = l.length := by
  induction l with
  | nil => simp
  | cons a l ih =>
    simp only [List.countP_cons, List.length_cons]
    rcases h : nuc_to_index a with _ | j0
    · simp only [h, Finset.sum_add_distrib]
      simp only [beq_iff_eq, reduceCtorEq, if_false, if_true, Finset.sum_const_zero,
        add_zero, beq_self_eq_true, if_pos]
      omega
    · simp only [h, Finset.sum_add_distrib]
      have hsum : (∑ j : Fin 5, if ((some j0 == some j) = true) then 1 else 0) = 1 := by
        simp [beq_iff_eq, Finset.sum_ite_eq]
      rw [hsum]
      simp only [beq_iff_eq, reduceCtorEq, if_false, add_zero]
      omega

/-- Every entry that `checkWindow` can produce carries the window's start,
the window's end, the user-chosen base, and one of the two strands. -/
theorem mem_checkWindow {chrom : String} {base : Char} {ui ci : Fin 5}
    {thr w : Nat} {freq : Fin 5 → Nat} {k : Nat} {m : IntervalMatch}
    (hm : m ∈ checkWindow chrom base ui ci thr w freq k) :
    m.start = k ∧ m.stop = k + w ∧ m.name = base ∧
      (m.strand = "+" ∨ m.strand = "-") := by
  unfold checkWindow at hm
  rcases List.mem_append.mp hm with h | h
  · split at h
    · rw [List.mem_singleton] at h
      subst h
      exact ⟨rfl, rfl, rfl, Or.inl rfl⟩
    · simp at h
  · split at h
    · rw [List.mem_singleton] at h
      subst h
      exact ⟨rfl, rfl, rfl, Or.inr rfl⟩
    · simp at h

/-- Within one window's output the "+" entry precedes the "-" entry. -/
theorem checkWindow_pairwise (chrom : String) (base : Char) (ui ci : Fin 5)
    (thr w : Nat) (freq : Fin 5 → Nat) (k : Nat) :
    (checkWindow chrom base ui ci thr w freq k).Pairwise
      (fun a b => a.start < b.start ∨
        (a.start = b.start ∧ a.strand = "+" ∧ b.strand = "-")) := by
  unfold checkWindow
  rw [List.pairwise_append]
  refine ⟨?_, ?_, ?_⟩
  · split <;> simp
  · split <;> simp
  · intro a ha b hb
    split at ha <;> simp at ha
    split at hb <;> simp at hb
    subst ha
    subst hb
    exact Or.inr ⟨rfl, rfl, rfl⟩

/-- A flat map over `range n` collapses to its single nonempty chunk. -/
theorem flatMap_range_eq_single {α : Type} (n k : Nat) (g : Nat → List α)
    (hk : k < n) (h : ∀ j, j < n → j ≠ k → g j = []) :
    (List.range n).flatMap g = g k := by
  induction n with
  | zero => omega
  | succ n ih =>
    rw [List.range_succ, List.flatMap_append]
    rcases eq_or_ne k n with rfl | hkn
    · have hnil : (List.range k).flatMap g = [] := by
        rw [List.flatMap_eq_nil_iff]
        intro x hx
        rw [List.mem_range] at hx
        exact h x (by omega) (by omega)
      simp [hnil]
    · have hgn : g n = [] := h n (by omega) (Ne.symm hkn)
      rw [ih (by omega) (fun j hj hjk => h j (by omega) hjk)]
      simp [hgn]

/-- Filtering one window's own output by its start keeps everything. -/
theorem filter_checkWindow_self (chrom : String) (base : Char) (ui ci : Fin 5)
    (thr w : Nat) (freq : Fin 5 → Nat) (k : Nat) :
    (checkWindow chrom base ui ci thr w freq k).filter (fun m => m.start == k) =
      checkWindow chrom base ui ci thr w freq k :=
  List.filter_eq_self.mpr fun m hm => by
    simpa using (mem_checkWindow hm).1

/-- Filtering another window's output by this start drops everything. -/
theorem filter_checkWindow_ne (chrom : String) (base : Char) (ui ci : Fin 5)
    (thr w : Nat) (freq : Fin 5 → Nat) (j k : Nat) (hjk : j ≠ k) :
    (checkWindow chrom base ui ci thr w freq j).filter (fun m => m.start == k) = [] :=
  List.filter_eq_nil_iff.mpr fun m hm => by
    simp [(mem_checkWindow hm).1, hjk]

/-- Resolving the threshold for a zero-size window yields 0 for every
percentage: `(p / 100.0) * 0.0` is exactly `0.0` and so is its ceiling. -/
theorem threshold_count_f64_zero_window (p : ℚ) : threshold_count_f64 p 0 = 0 := by
  simp [threshold_count_f64, fl]

/-- Evaluate one `fl` application from the value of its floor-log and of
its rounded 53-bit significand. -/
theorem fl_eq (q : ℚ) (e m : ℤ) (hq : 0 < q) (he : floorLog2 q = e)
    (hm : roundHalfEven (q * 2 ^ ((52 : ℤ) - e)) = m) :
    fl q = (m : ℚ) * 2 ^ (e - 52) := by
  rw [fl, if_neg (not_le.mpr hq), he, hm]

/-- Evaluate the resolved threshold from the values of its `f64` steps. -/
theorem threshold_count_f64_eq (p : ℚ) (w : Nat) (a b c d : ℚ) (n : ℤ)
    (h1 : fl (p / 100) = a) (h2 : fl (w : ℚ) = b) (h3 : a * b = c)
    (h4 : fl c = d) (h5 : ⌈d⌉ = n) :
    threshold_count_f64 p w = n.toNat := by
  rw [threshold_count_f64, h1, h2, h3, h4, h5]

/-- Matches emitted at window position `k`: a "+" entry exactly when the
user slot's from-scratch count reaches the threshold, then a "-" entry
exactly when the complement slot's does.  The hypothesis `w = 0 → thr = 0`
holds for every threshold the resolver can produce. -/
theorem scanRecord_filter_start (chrom : String) (seq : List Nat) (w thr k : Nat)
    (base : Char) (ui ci : Fin 5)
    (hu : nuc_to_index base.toNat = some ui)
    (hc : nuc_to_index (complement_char base).toNat = some ci)
    (hthr : w = 0 → thr = 0)
    (hw : w ≤ seq.length) (hk : k ≤ seq.length - w) :
    (scanRecord chrom seq w thr base).filter (fun m => m.start == k) =
      (if thr ≤ windowCount seq k w ui then
        [⟨chrom, k, k + w, base, (windowCount seq k w ui : ℚ) / (w : ℚ) * 100, "+"⟩]
      else [])
      ++
      (if thr ≤ windowCount seq k w ci then
        [⟨chrom, k, k + w, base, (windowCount seq k w ci : ℚ) / (w : ℚ) * 100, "-"⟩]
      else []) := by
  unfold scanRecord
  split
  case _ ui' ci' h1 h2 =>
    have e1 : ui' = ui := by rw [hu] at h1; exact (Option.some.inj h1).symm
    have e2 : ci' = ci := by rw [hc] at h2; exact (Option.some.inj h2).symm
    rw [e1, e2, if_neg (by omega : ¬ seq.length < w), List.filter_flatMap]
    rw [flatMap_range_eq_single (seq.length - w + 1) k _ (by omega)
      (fun j hj hjk => filter_checkWindow_ne chrom base ui ci thr w _ j k hjk)]
    rw [filter_checkWindow_self]
    rcases Nat.eq_zero_or_pos w with rfl | hpos
    · have hthr0 := hthr rfl
      subst hthr0
      unfold checkWindow
      simp
    · have hfun : freqAt seq w k = windowCount seq k w :=
        funext (freqAt_eq_windowCount seq w hpos hw k hk)
      rw [hfun]
      rfl
  case _ h =>
    exact (h ui ci hu hc).elim

/-- C1 (counterexample): the claim quantifies over every window size
`w ≤ sequence length`, which includes `w = 0`; there the incremental table
diverges from the from-scratch table.  On the sequence "A" at position 1,
the evict of `seq[0]` saturates at 0 and the insert of the same byte then
bumps slot A to 1, while the empty window's from-scratch count is 0. -/
theorem incremental_update_equivalence_cex :
    (0 : Nat) ≤ ([65] : List Nat).length ∧ 1 ≤ ([65] : List Nat).length - 0 ∧
    freqAt [65] 0 1 0 ≠ windowCount [65] 1 0 0 := by decide

/-- C1 (amended: window size at least 1): at every window position `k` the
incrementally updated frequency table equals the table obtained by
independently classifying every byte of `[k, k + w)` from scratch. -/
theorem incremental_update_equivalence (seq : List Nat) (w k : Nat) (i : Fin 5)
    (h1 : 1 ≤ w) (hw : w ≤ seq.length) (hk : k ≤ seq.length - w) :
    freqAt seq w k i = windowCount seq k w i :=
  freqAt_eq_windowCount seq w h1 hw k hk i

/-- C1 (witness): sequence "AAT", window size 2, position 1, slot A. -/
theorem incremental_update_equivalence_witness :
    1 ≤ 2 ∧ 2 ≤ ([65, 65, 84] : List Nat).length ∧
    1 ≤ ([65, 65, 84] : List Nat).length - 2 ∧
    freqAt [65, 65, 84] 2 1 0 = windowCount [65, 65, 84] 1 2 0 :=
  ⟨by decide, by decide, by decide,
   incremental_update_equivalence [65, 65, 84] 2 1 0 (by decide) (by decide) (by decide)⟩

/-- C2: at every window position `k` the scan's output at that start is
exactly: a "+" entry with `percentage = user_count / w * 100` when the user
slot's count reaches the resolved threshold, followed by a "-" entry with
`percentage = comp_count / w * 100` when the complement slot's count does —
both judged independently, so `k` yields zero, one, or two entries and
never two of the same strand. -/
theorem window_match_rule (chrom : String) (seq : List Nat) (w k : Nat) (p : ℚ)
    (base : Char) (ui ci : Fin 5)
    (hu : nuc_to_index base.toNat = some ui)
    (hc : nuc_to_index (complement_char base).toNat = some ci)
    (hw : w ≤ seq.length) (hk : k ≤ seq.length - w) :
    (scanRecord chrom seq w (threshold_count_f64 p w) base).filter
        (fun m => m.start == k) =
      (if threshold_count_f64 p w ≤ windowCount seq k w ui then
        [⟨chrom, k, k + w, base, (windowCount seq k w ui : ℚ) / (w : ℚ) * 100, "+"⟩]
      else [])
      ++
      (if threshold_count_f64 p w ≤ windowCount seq k w ci then
        [⟨chrom, k, k + w, base, (windowCount seq k w ci : ℚ) / (w : ℚ) * 100, "-"⟩]
      else []) :=
  scanRecord_filter_start chrom seq w _ k base ui ci hu hc
    (fun h0 => by subst h0; exact threshold_count_f64_zero_window p) hw hk

/-- C2 (witness): sequence "AA", window size 1, p = 80, base A at position
0: the threshold is 1, the A-slot count is 1, the T-slot count is 0, so the
window emits exactly the "+" entry. -/
theorem window_match_rule_witness :
    nuc_to_index ('A'.toNat) = some 0 ∧
    nuc_to_index ((complement_char 'A').toNat) = some 3 ∧
    1 ≤ ([65, 65] : List Nat).length ∧ 0 ≤ ([65, 65] : List Nat).length - 1 ∧
    (scanRecord "c" [65, 65] 1 (threshold_count_f64 80 1) 'A').filter
        (fun m => m.start == 0) =
      (if threshold_count_f64 80 1 ≤ windowCount [65, 65] 0 1 0 then
        [⟨"c", 0, 0 + 1, 'A', (windowCount [65, 65] 0 1 0 : ℚ) / (1 : ℚ) * 100, "+"⟩]
      else [])
      ++
      (if threshold_count_f64 80 1 ≤ windowCount [65, 65] 0 1 3 then
        [⟨"c", 0, 0 + 1, 'A', (windowCount [65, 65] 0 1 3 : ℚ) / (1 : ℚ) * 100, "-"⟩]
      else []) :=
  ⟨by decide, by decide, by decide, by decide,
   window_match_rule "c" [65, 65] 1 0 80 'A' 0 3 (by decide) (by decide)
     (by decide) (by decide)⟩

/-- C3 (counterexample): `p = 4691249611844267 / 2 ^ 46`, printed
`66.66666666666667`, is a validated percentage — a double (fixed by `fl`)
inside `[50, 100]` — and with `w = 3` the code's f64 threshold computation
yields 2 while the exact mathematical ceiling of `p / 100 * 3` is 3: the
product `fl (p / 100) * 3` lands exactly on the tie `2 + 2 ^ (-52)`, which
rounds to even, i.e. down to `2.0`, and `ceil 2.0 = 2`. -/
theorem threshold_ceiling_cex :
    ((50 : ℚ) ≤ 4691249611844267 / 2 ^ 46 ∧
      (4691249611844267 : ℚ) / 2 ^ 46 ≤ 100) ∧
    fl (4691249611844267 / 2 ^ 46) = 4691249611844267 / 2 ^ 46 ∧
    threshold_count_f64 (4691249611844267 / 2 ^ 46) 3 = 2 ∧
    threshold_count_spec (4691249611844267 / 2 ^ 46) 3 = 3 := by
  refine ⟨⟨by norm_num, by norm_num⟩, ?_, ?_, ?_⟩
  · rw [fl_eq _ 6 4691249611844267 (by norm_num) (by with_unfolding_all decide)
      (by with_unfolding_all decide)]
    norm_num
  · have h1 : fl ((4691249611844267 / 2 ^ 46 : ℚ) / 100) =
        6004799503160662 / 2 ^ 53 := by
      rw [fl_eq _ (-1) 6004799503160662 (by norm_num) (by with_unfolding_all decide)
        (by with_unfolding_all decide)]
      norm_num
    have h2 : fl ((3 : ℕ) : ℚ) = 3 := by
      rw [show ((3 : ℕ) : ℚ) = 3 from by norm_num]
      rw [fl_eq _ 1 6755399441055744 (by norm_num) (by with_unfolding_all decide)
        (by with_unfolding_all decide)]
      norm_num
    have h3 : (6004799503160662 / 2 ^ 53 : ℚ) * 3 = 18014398509481986 / 2 ^ 53 := by
      norm_num
    have h4 : fl ((18014398509481986 : ℚ) / 2 ^ 53) = 2 := by
      rw [fl_eq _ 1 4503599627370496 (by norm_num) (by with_unfolding_all decide)
        (by with_unfolding_all decide)]
      norm_num
    have h5 : ⌈(2 : ℚ)⌉ = (2 : ℤ) := by norm_num
    rw [threshold_count_f64_eq _ 3 _ _ _ _ 2 h1 h2 h3 h4 h5]
    decide
  · rw [threshold_count_spec,
      show (⌈(4691249611844267 / 2 ^ 46 : ℚ) / 100 * ((3 : ℕ) : ℚ)⌉ : ℤ) = 3 from by
        rw [Int.ceil_eq_iff] <;> norm_num]
    decide

/-- C3 (amended): the resolved threshold is the ceiling of the
double-precision evaluation of `p / 100 * w`, which agrees with the exact
mathematical ceiling on the spec's example inputs — `w = 10, p = 80 → 8`;
`w = 100, p = 79.01` (as parsed to the nearest double, `fl (7901 / 100)`)
`→ 80`; `w = 3, p = 51 → 2` — though not for every validated percentage. -/
theorem threshold_ceiling_examples :
    threshold_count_f64 80 10 = 8 ∧ threshold_count_spec 80 10 = 8 ∧
    threshold_count_f64 (fl (7901 / 100)) 100 = 80 ∧
    threshold_count_spec (fl (7901 / 100)) 100 = 80 ∧
    threshold_count_f64 51 3 = 2 ∧ threshold_count_spec 51 3 = 2 := by
  have h79 : fl ((7901 : ℚ) / 100) = 5559834477477233 / 2 ^ 46 := by
    rw [fl_eq _ 6 5559834477477233 (by norm_num) (by with_unfolding_all decide)
      (by with_unfolding_all decide)]
    norm_num
  have hfl3 : fl ((3 : ℕ) : ℚ) = 3 := by
    rw [show ((3 : ℕ) : ℚ) = 3 from by norm_num]
    rw [fl_eq _ 1 6755399441055744 (by norm_num) (by with_unfolding_all decide)
      (by with_unfolding_all decide)]
    norm_num
  refine ⟨by with_unfolding_all decide, ?_, ?_, ?_, ?_, ?_⟩
  · rw [threshold_count_spec,
      show (⌈(80 : ℚ) / 100 * ((10 : ℕ) : ℚ)⌉ : ℤ) = 8 from by
        rw [Int.ceil_eq_iff] <;> norm_num]
    decide
  · have h1 : fl ((5559834477477233 / 2 ^ 46 : ℚ) / 100) =
        7116588131170858 / 2 ^ 53 := by
      rw [fl_eq _ (-1) 7116588131170858 (by norm_num) (by with_unfolding_all decide)
        (by with_unfolding_all decide)]
      norm_num
    have h2 : fl ((100 : ℕ) : ℚ) = 100 := by
      rw [show ((100 : ℕ) : ℚ) = 100 from by norm_num]
      rw [fl_eq _ 6 7036874417766400 (by norm_num) (by with_unfolding_all decide)
        (by with_unfolding_all decide)]
      norm_num
    have h3 : (7116588131170858 / 2 ^ 53 : ℚ) * 100 =
        711658813117085800 / 2 ^ 53 := by norm_num
    have h4 : fl ((711658813117085800 : ℚ) / 2 ^ 53) =
        5559834477477233 / 2 ^ 46 := by
      rw [fl_eq _ 6 5559834477477233 (by norm_num) (by with_unfolding_all decide)
        (by with_unfolding_all decide)]
      norm_num
    have h5 : ⌈(5559834477477233 / 2 ^ 46 : ℚ)⌉ = (80 : ℤ) := by
      rw [Int.ceil_eq_iff] <;> norm_num
    rw [h79, threshold_count_f64_eq _ 100 _ _ _ _ 80 h1 h2 h3 h4 h5]
    decide
  · rw [h79, threshold_count_spec,
      show (⌈(5559834477477233 / 2 ^ 46 : ℚ) / 100 * ((100 : ℕ) : ℚ)⌉ : ℤ) = 80 from by
        rw [Int.ceil_eq_iff] <;> norm_num]
    decide
  · have h1 : fl ((51 : ℚ) / 100) = 2296835809958953 / 2 ^ 52 := by
      rw [fl_eq _ (-1) 4593671619917906 (by norm_num) (by with_unfolding_all decide)
        (by with_unfolding_all decide)]
      norm_num
    have h3 : (2296835809958953 / 2 ^ 52 : ℚ) * 3 = 6890507429876859 / 2 ^ 52 := by
      norm_num
    have h4 : fl ((6890507429876859 : ℚ) / 2 ^ 52) = 6890507429876859 / 2 ^ 52 := by
      rw [fl_eq _ 0 6890507429876859 (by norm_num) (by with_unfolding_all decide)
        (by with_unfolding_all decide)]
      norm_num
    have h5 : ⌈(6890507429876859 / 2 ^ 52 : ℚ)⌉ = (2 : ℤ) := by
      rw [Int.ceil_eq_iff] <;> norm_num
    rw [threshold_count_f64_eq _ 3 _ _ _ _ 2 h1 hfl3 h3 h4 h5]
    decide
  · rw [threshold_count_spec,
      show (⌈(51 : ℚ) / 100 * ((3 : ℕ) : ℚ)⌉ : ℤ) = 2 from by
        rw [Int.ceil_eq_iff] <;> norm_num]
    decide

/-- C4: the claim says a window size of 0 produces no matches and performs
no division by the window size; in the code the guard `seq.len() < w`
never fires for `w = 0`, the resolved threshold is 0, and even the empty
sequence gets one window at `start = 0` whose two checks both pass `0 ≥ 0`,
emitting a "+" and a "-" match (whose percentages divide by zero: `0.0/0.0`,
`NaN` in the real program). -/
theorem zero_window_size_emits_matches :
    threshold_count_f64 80 0 = 0 ∧
    (scanRecord "chr" [] 0 (threshold_count_f64 80 0) 'A').length = 2 := by
  constructor
  · exact threshold_count_f64_zero_window 80
  · with_unfolding_all decide

/-- C5: the selector N is its own complement, so both threshold checks
read slot 4 (the N slot): whenever that count reaches the threshold the
window emits exactly two entries, "+" then "-", with identical percentage
and symbol N. -/
theorem self_complement_duplicate (chrom : String) (seq : List Nat) (w k : Nat)
    (p : ℚ) (hw : w ≤ seq.length) (hk : k ≤ seq.length - w)
    (ht : threshold_count_f64 p w ≤ windowCount seq k w 4) :
    complement_char 'N' = 'N' ∧
    (scanRecord chrom seq w (threshold_count_f64 p w) 'N').filter
        (fun m => m.start == k) =
      [⟨chrom, k, k + w, 'N', (windowCount seq k w 4 : ℚ) / (w : ℚ) * 100, "+"⟩,
       ⟨chrom, k, k + w, 'N', (windowCount seq k w 4 : ℚ) / (w : ℚ) * 100, "-"⟩] := by
  refine ⟨by decide, ?_⟩
  rw [scanRecord_filter_start chrom seq w _ k 'N' 4 4 (by decide) (by decide)
    (fun h0 => by subst h0; exact threshold_count_f64_zero_window p) hw hk]
  rw [if_pos ht, if_pos ht]
  rfl

/-- C5 (witness): ten N bases, window size 10, p = 80 (threshold 8): the
single window emits exactly two entries, "+" then "-", both with
percentage `10 / 10 * 100 = 100` and symbol N. -/
theorem self_complement_duplicate_witness :
    10 ≤ ([78, 78, 78, 78, 78, 78, 78, 78, 78, 78] : List Nat).length ∧
    0 ≤ ([78, 78, 78, 78, 78, 78, 78, 78, 78, 78] : List Nat).length - 10 ∧
    threshold_count_f64 80 10 ≤
      windowCount [78, 78, 78, 78, 78, 78, 78, 78, 78, 78] 0 10 4 ∧
    (windowCount [78, 78, 78, 78, 78, 78, 78, 78, 78, 78] 0 10 4 : ℚ) /
      (10 : ℚ) * 100 = 100 ∧
    (complement_char 'N' = 'N' ∧
      (scanRecord "c" [78, 78, 78, 78, 78, 78, 78, 78, 78, 78] 10
          (threshold_count_f64 80 10) 'N').filter (fun m => m.start == 0) =
        [⟨"c", 0, 0 + 10, 'N',
          (windowCount [78, 78, 78, 78, 78, 78, 78, 78, 78, 78] 0 10 4 : ℚ) /
            (10 : ℚ) * 100, "+"⟩,
         ⟨"c", 0, 0 + 10, 'N',
          (windowCount [78, 78, 78, 78, 78, 78, 78, 78, 78, 78] 0 10 4 : ℚ) /
            (10 : ℚ) * 100, "-"⟩]) :=
  ⟨by decide, by decide, by with_unfolding_all decide, by with_unfolding_all decide,
   self_complement_duplicate "c" [78, 78, 78, 78, 78, 78, 78, 78, 78, 78] 10 0 80
     (by decide) (by decide) (by with_unfolding_all decide)⟩

/-- C6: every emitted interval carries the user's originally chosen base as
its name — never the complement — including "-"-strand entries. -/
theorem match_symbol_is_user_base (chrom : String) (seq : List Nat) (w thr : Nat)
    (base : Char) (m : IntervalMatch)
    (hm : m ∈ scanRecord chrom seq w thr base) : m.name = base := by
  unfold scanRecord at hm
  split at hm
  · split at hm
    · simp at hm
    · obtain ⟨k, _, hk⟩ := List.mem_flatMap.mp hm
      exact (mem_checkWindow hk).2.2.1
  · simp at hm

/-- C6 (witness): the single match on sequence "A" (window 1, threshold 1,
base A) carries name A. -/
theorem match_symbol_is_user_base_witness :
    (⟨"c", 0, 1, 'A', 100, "+"⟩ : IntervalMatch) ∈ scanRecord "c" [65] 1 1 'A' ∧
    (⟨"c", 0, 1, 'A', 100, "+"⟩ : IntervalMatch).name = 'A' :=
  ⟨by with_unfolding_all decide,
   match_symbol_is_user_base "c" [65] 1 1 'A' _ (by with_unfolding_all decide)⟩

/-- C7: within one record the matches come out in strictly increasing start
order, except that a window firing on both strands emits its "+" entry
immediately before its "-" entry. -/
theorem match_emission_order (chrom : String) (seq : List Nat) (w thr : Nat)
    (base : Char) :
    (scanRecord chrom seq w thr base).Pairwise
      (fun a b => a.start < b.start ∨
        (a.start = b.start ∧ a.strand = "+" ∧ b.strand = "-")) := by
  unfold scanRecord
  split
  · split
    · exact List.Pairwise.nil
    · rw [List.pairwise_flatMap]
      refine ⟨fun k _ => checkWindow_pairwise _ _ _ _ _ _ _ _, ?_⟩
      refine (List.pairwise_lt_range _).imp ?_
      intro k1 k2 hlt x hx y hy
      exact Or.inl (by rw [(mem_checkWindow hx).1, (mem_checkWindow hy).1]; exact hlt)
  · exact List.Pairwise.nil

/-- C8: a record strictly shorter than the window is skipped silently:
zero matches regardless of content. -/
theorem short_record_skipped (chrom : String) (seq : List Nat) (w thr : Nat)
    (base : Char) (_h1 : 0 < w) (h : seq.length < w) :
    scanRecord chrom seq w thr base = [] := by
  unfold scanRecord
  split
  · exact if_pos h
  · rfl

/-- C8 (witness): sequence "A" with window size 2 yields no matches. -/
theorem short_record_skipped_witness :
    0 < 2 ∧ ([65] : List Nat).length < 2 ∧ scanRecord "chr" [65] 2 1 'A' = [] :=
  ⟨by decide, by decide,
   short_record_skipped "chr" [65] 2 1 'A' (by decide) (by decide)⟩

/-- C9 (counterexample): at window size 0 — a window position of a scan the
code really performs — the partition fails after one slide: on the
sequence "A" at position 1 the five slots sum to 1 while the window size
is 0 (and the unrecognized count is 0). -/
theorem frequency_partition_cex :
    (0 : Nat) ≤ ([65] : List Nat).length ∧ 1 ≤ ([65] : List Nat).length - 0 ∧
    (∑ j : Fin 5, freqAt [65] 0 1 j) + unrecognizedCount [65] 1 0 ≠ 0 := by
  decide

/-- C9 (amended: window size at least 1): at every window position the five
slots plus the number of unrecognized bytes in the window sum to exactly
`w`; moreover classification is case-insensitive over the closed 5-symbol
alphabet — exactly the ten bytes `A/a C/c G/g T/t N/n` are recognized, and
each lower-case byte maps to its upper-case slot. -/
theorem frequency_partition (seq : List Nat) (w k : Nat) (h1 : 1 ≤ w)
    (hw : w ≤ seq.length) (hk : k ≤ seq.length - w) :
    ((∑ j : Fin 5, freqAt seq w k j) + unrecognizedCount seq k w = w) ∧
    (∀ b : Nat, b < 256 →
      ((nuc_to_index b).isSome ↔
        b ∈ ([65, 97, 67, 99, 71, 103, 84, 116, 78, 110] : List Nat))) ∧
    nuc_to_index 97 = nuc_to_index 65 ∧ nuc_to_index 99 = nuc_to_index 67 ∧
    nuc_to_index 103 = nuc_to_index 71 ∧ nuc_to_index 116 = nuc_to_index 84 ∧
    nuc_to_index 110 = nuc_to_index 78 := by
  refine ⟨?_, by decide, by decide, by decide, by decide, by decide, by decide⟩
  have hfun : ∀ j : Fin 5, freqAt seq w k j = windowCount seq k w j :=
    freqAt_eq_windowCount seq w h1 hw k hk
  calc (∑ j : Fin 5, freqAt seq w k j) + unrecognizedCount seq k w
      = (∑ j : Fin 5, windowCount seq k w j) + unrecognizedCount seq k w := by
        rw [Finset.sum_congr rfl (fun j _ => hfun j)]
    _ = ((seq.drop k).take w).length := countP_partition _
    _ = w := by
        rw [List.length_take, List.length_drop]
        omega

/-- C9 (witness): sequence "AB" (B unrecognized), window size 2 at
position 0: the slots sum to 1 and one byte is unrecognized. -/
theorem frequency_partition_witness :
    1 ≤ 2 ∧ 2 ≤ ([65, 66] : List Nat).length ∧ 0 ≤ ([65, 66] : List Nat).length - 2 ∧
    (((∑ j : Fin 5, freqAt [65, 66] 2 0 j) + unrecognizedCount [65, 66] 0 2 = 2) ∧
     (∀ b : Nat, b < 256 →
       ((nuc_to_index b).isSome ↔
         b ∈ ([65, 97, 67, 99, 71, 103, 84, 116, 78, 110] : List Nat))) ∧
     nuc_to_index 97 = nuc_to_index 65 ∧ nuc_to_index 99 = nuc_to_index 67 ∧
     nuc_to_index 103 = nuc_to_index 71 ∧ nuc_to_index 116 = nuc_to_index 84 ∧
     nuc_to_index 110 = nuc_to_index 78) :=
  ⟨by decide, by decide, by decide,
   frequency_partition [65, 66] 2 0 (by decide) (by decide) (by decide)⟩

/-- C10 (counterexample): at window size 0 the code still slides, and the
byte it evicts is recognized while its slot is 0, so the saturating
subtraction genuinely saturates: sequence "A", slide to position 1, the
leaving byte `seq[0]` maps to slot A whose count before the decrement
is 0, not at least 1. -/
theorem saturating_sub_no_saturation_cex :
    nuc_to_index (([65] : List Nat).getD 0 0) = some 0 ∧
    0 + 1 ≤ ([65] : List Nat).length - 0 ∧
    freqAt [65] 0 0 0 = 0 := by decide

/-- C10 (amended: window size at least 1): whenever a slide from position
`k` to `k + 1` evicts a recognized byte, that byte's slot holds at least 1
before the decrement, so the saturating subtraction never saturates. -/
theorem saturating_sub_no_saturation (seq : List Nat) (w k : Nat) (i : Fin 5)
    (h1 : 1 ≤ w) (hw : w ≤ seq.length) (hk : k + 1 ≤ seq.length - w)
    (hi : nuc_to_index (seq.getD k 0) = some i) :
    1 ≤ freqAt seq w k i := by
  rw [freqAt_eq_windowCount seq w h1 hw k (by omega) i]
  obtain ⟨w', rfl⟩ : ∃ w', w = w' + 1 := ⟨w - 1, by omega⟩
  have hklen : k < seq.length := by omega
  rw [List.getD_eq_getElem seq 0 hklen] at hi
  rw [windowCount, List.drop_eq_getElem_cons hklen, List.take_succ_cons,
    List.countP_cons]
  simp [hi]

/-- C10 (witness): sequence "AA", window size 1, slide from position 0: the
leaving byte A is recognized and its slot holds 1. -/
theorem saturating_sub_no_saturation_witness :
    1 ≤ 1 ∧ 1 ≤ ([65, 65] : List Nat).length ∧
    0 + 1 ≤ ([65, 65] : List Nat).length - 1 ∧
    nuc_to_index (([65, 65] : List Nat).getD 0 0) = some 0 ∧
    1 ≤ freqAt [65, 65] 1 0 0 :=
  ⟨by decide, by decide, by decide, by decide,
   saturating_sub_no_saturation [65, 65] 1 0 0 (by decide) (by decide) (by decide)
     (by decide)⟩

end Polyscan
